import Mathlib

/-!
Verification of the ML-KEM (FIPS 203 IPD) core implemented in src/fips203.c.

The development shallowly embeds the C source: machine integers become
Nat with explicit reductions (% 2^32, % 2^16, % 256) where C overflow or
truncation matters, byte buffers become lists of Nat, and the in-place
polynomial loops become structurally equivalent functional passes over
the coefficient list.  The SHA-3 and SHAKE primitives are declared in
src/sha3.h but their implementation is not part of src/, so they are
modelled from the specification (FIPS 202 sponge over Keccak-f[1600]).
-/

set_option maxRecDepth 100000

namespace Fips203

/-- Prime modulus q = 3329 used throughout the field layer. -/
def Q : Nat := 3329

/-- Modulus of 32-bit unsigned arithmetic. -/
def U32 : Nat := 4294967296

/-- Modulus of 64-bit unsigned arithmetic. -/
def U64 : Nat := 18446744073709551616

/-- NTT twiddle table from fips203.c: entry n is 17^bitrev7(n) mod q. -/
def NTT_LUT : List Nat := [
  1, 1729, 2580, 3289, 2642, 630, 1897, 848, 1062, 1919, 193, 797,
  2786, 3260, 569, 1746, 296, 2447, 1339, 1476, 3046, 56, 2240, 1333,
  1426, 2094, 535, 2882, 2393, 2879, 1974, 821, 289, 331, 3253, 1756,
  1197, 2304, 2277, 2055, 650, 1977, 2513, 632, 2865, 33, 1320, 1915,
  2319, 1435, 807, 452, 1438, 2868, 1534, 2402, 2647, 2617, 1481, 648,
  2474, 3110, 1227, 910, 17, 2761, 583, 2649, 1637, 723, 2288, 1100,
  1409, 2662, 3281, 233, 756, 2156, 3015, 3050, 1703, 1651, 2789, 1789,
  1847, 952, 1461, 2687, 939, 2308, 2437, 2388, 733, 2337, 268, 641,
  1584, 2298, 2037, 3220, 375, 2549, 2090, 1645, 1063, 319, 2773, 757,
  2099, 561, 2466, 2594, 2804, 1092, 403, 1026, 1143, 2150, 2775, 886,
  1722, 1212, 1874, 1029, 2110, 2935, 885, 2154]

/-- Base-case multiply table from fips203.c: entry n is 17^(2 bitrev7(n) + 1) mod q. -/
def MUL_LUT : List Nat := [
  17, 3312, 2761, 568, 583, 2746, 2649, 680, 1637, 1692, 723, 2606,
  2288, 1041, 1100, 2229, 1409, 1920, 2662, 667, 3281, 48, 233, 3096,
  756, 2573, 2156, 1173, 3015, 314, 3050, 279, 1703, 1626, 1651, 1678,
  2789, 540, 1789, 1540, 1847, 1482, 952, 2377, 1461, 1868, 2687, 642,
  939, 2390, 2308, 1021, 2437, 892, 2388, 941, 733, 2596, 2337, 992,
  268, 3061, 641, 2688, 1584, 1745, 2298, 1031, 2037, 1292, 3220, 109,
  375, 2954, 2549, 780, 2090, 1239, 1645, 1684, 1063, 2266, 319, 3010,
  2773, 556, 757, 2572, 2099, 1230, 561, 2768, 2466, 863, 2594, 735,
  2804, 525, 1092, 2237, 403, 2926, 1026, 2303, 1143, 2186, 2150, 1179,
  2775, 554, 886, 2443, 1722, 1607, 1212, 2117, 1874, 1455, 1029, 2300,
  2110, 1219, 2935, 394, 885, 2444, 2154, 1175]

/-!
Modelled from the spec: the SHA-3 / SHAKE primitives (SHA3-256, SHA3-512,
SHAKE128 XOF, SHAKE256 XOF) consumed by the core through src/sha3.h.
The implementation file for these primitives is not under src/, so they
are given here directly as the FIPS 202 sponge construction over the
Keccak-f[1600] permutation (64-bit lanes, 24 rounds).
-/

/-- Rotate a 64-bit lane left by n bits. -/
def rotl64 (x n : Nat) : Nat :=
  ((x <<< n) ||| (x >>> (64 - n))) % U64

/-- Source lane index of the combined rho and pi steps, indexed by destination lane. -/
def KECCAK_PI_SRC : List Nat :=
  [0, 6, 12, 18, 24, 3, 9, 10, 16, 22, 1, 7, 13, 19, 20, 4, 5, 11, 17, 23, 2, 8, 14, 15, 21]

/-- Rotation amount of the combined rho and pi steps, indexed by destination lane. -/
def KECCAK_RHO : List Nat :=
  [0, 44, 43, 21, 14, 28, 20, 3, 45, 61, 1, 6, 25, 8, 18, 27, 36, 10, 15, 56, 62, 55, 39, 41, 2]

/-- Round constants of Keccak-f[1600]. -/
def KECCAK_RC : List Nat := [
  1, 32898, 9223372036854808714, 9223372039002292224, 32907, 2147483649,
  9223372039002292353, 9223372036854808585, 138, 136, 2147516425, 2147483658,
  2147516555, 9223372036854775947, 9223372036854808713, 9223372036854808579,
  9223372036854808578, 9223372036854775936, 32778, 9223372039002259466,
  9223372039002292353, 9223372036854808704, 2147483649, 9223372039002292232]

/-- Split a list into chunks of n elements, structurally by fuel. -/
def chunksGo (n : Nat) : Nat → List Nat → List (List Nat)
  | 0, _ => []
  | _, [] => []
  | fuel + 1, l => l.take n :: chunksGo n fuel (l.drop n)

/-- Split a list into chunks of n elements. -/
def chunks (n : Nat) (l : List Nat) : List (List Nat) :=
  chunksGo n l.length l

/-- State of Keccak-f[1600]: the 25 64-bit lanes of uint64_t a[25],
lane x + 5 y in field a(x + 5 y). -/
structure KState where
  a0 : Nat
  a1 : Nat
  a2 : Nat
  a3 : Nat
  a4 : Nat
  a5 : Nat
  a6 : Nat
  a7 : Nat
  a8 : Nat
  a9 : Nat
  a10 : Nat
  a11 : Nat
  a12 : Nat
  a13 : Nat
  a14 : Nat
  a15 : Nat
  a16 : Nat
  a17 : Nat
  a18 : Nat
  a19 : Nat
  a20 : Nat
  a21 : Nat
  a22 : Nat
  a23 : Nat
  a24 : Nat

/-- Single round of Keccak-f[1600] on the 25-lane state, unrolled; rc is the round constant. -/
def keccakRound (rc : Nat) (s : KState) : KState :=
  let c0 := s.a0 ^^^ s.a5 ^^^ s.a10 ^^^ s.a15 ^^^ s.a20
  let c1 := s.a1 ^^^ s.a6 ^^^ s.a11 ^^^ s.a16 ^^^ s.a21
  let c2 := s.a2 ^^^ s.a7 ^^^ s.a12 ^^^ s.a17 ^^^ s.a22
  let c3 := s.a3 ^^^ s.a8 ^^^ s.a13 ^^^ s.a18 ^^^ s.a23
  let c4 := s.a4 ^^^ s.a9 ^^^ s.a14 ^^^ s.a19 ^^^ s.a24
  let d0 := c4 ^^^ rotl64 c1 1
  let d1 := c0 ^^^ rotl64 c2 1
  let d2 := c1 ^^^ rotl64 c3 1
  let d3 := c2 ^^^ rotl64 c4 1
  let d4 := c3 ^^^ rotl64 c0 1
  let b0 := s.a0 ^^^ d0
  let b1 := rotl64 (s.a6 ^^^ d1) 44
  let b2 := rotl64 (s.a12 ^^^ d2) 43
  let b3 := rotl64 (s.a18 ^^^ d3) 21
  let b4 := rotl64 (s.a24 ^^^ d4) 14
  let b5 := rotl64 (s.a3 ^^^ d3) 28
  let b6 := rotl64 (s.a9 ^^^ d4) 20
  let b7 := rotl64 (s.a10 ^^^ d0) 3
  let b8 := rotl64 (s.a16 ^^^ d1) 45
  let b9 := rotl64 (s.a22 ^^^ d2) 61
  let b10 := rotl64 (s.a1 ^^^ d1) 1
  let b11 := rotl64 (s.a7 ^^^ d2) 6
  let b12 := rotl64 (s.a13 ^^^ d3) 25
  let b13 := rotl64 (s.a19 ^^^ d4) 8
  let b14 := rotl64 (s.a20 ^^^ d0) 18
  let b15 := rotl64 (s.a4 ^^^ d4) 27
  let b16 := rotl64 (s.a5 ^^^ d0) 36
  let b17 := rotl64 (s.a11 ^^^ d1) 10
  let b18 := rotl64 (s.a17 ^^^ d2) 15
  let b19 := rotl64 (s.a23 ^^^ d3) 56
  let b20 := rotl64 (s.a2 ^^^ d2) 62
  let b21 := rotl64 (s.a8 ^^^ d3) 55
  let b22 := rotl64 (s.a14 ^^^ d4) 39
  let b23 := rotl64 (s.a15 ^^^ d0) 41
  let b24 := rotl64 (s.a21 ^^^ d1) 2
  ⟨(b0 ^^^ ((b1 ^^^ (U64 - 1)) &&& b2)) ^^^ rc,
   b1 ^^^ ((b2 ^^^ (U64 - 1)) &&& b3),
   b2 ^^^ ((b3 ^^^ (U64 - 1)) &&& b4),
   b3 ^^^ ((b4 ^^^ (U64 - 1)) &&& b0),
   b4 ^^^ ((b0 ^^^ (U64 - 1)) &&& b1),
   b5 ^^^ ((b6 ^^^ (U64 - 1)) &&& b7),
   b6 ^^^ ((b7 ^^^ (U64 - 1)) &&& b8),
   b7 ^^^ ((b8 ^^^ (U64 - 1)) &&& b9),
   b8 ^^^ ((b9 ^^^ (U64 - 1)) &&& b5),
   b9 ^^^ ((b5 ^^^ (U64 - 1)) &&& b6),
   b10 ^^^ ((b11 ^^^ (U64 - 1)) &&& b12),
   b11 ^^^ ((b12 ^^^ (U64 - 1)) &&& b13),
   b12 ^^^ ((b13 ^^^ (U64 - 1)) &&& b14),
   b13 ^^^ ((b14 ^^^ (U64 - 1)) &&& b10),
   b14 ^^^ ((b10 ^^^ (U64 - 1)) &&& b11),
   b15 ^^^ ((b16 ^^^ (U64 - 1)) &&& b17),
   b16 ^^^ ((b17 ^^^ (U64 - 1)) &&& b18),
   b17 ^^^ ((b18 ^^^ (U64 - 1)) &&& b19),
   b18 ^^^ ((b19 ^^^ (U64 - 1)) &&& b15),
   b19 ^^^ ((b15 ^^^ (U64 - 1)) &&& b16),
   b20 ^^^ ((b21 ^^^ (U64 - 1)) &&& b22),
   b21 ^^^ ((b22 ^^^ (U64 - 1)) &&& b23),
   b22 ^^^ ((b23 ^^^ (U64 - 1)) &&& b24),
   b23 ^^^ ((b24 ^^^ (U64 - 1)) &&& b20),
   b24 ^^^ ((b20 ^^^ (U64 - 1)) &&& b21)⟩

/-- Keccak-f[1600] permutation: 24 rounds. -/
def keccakF (s : KState) : KState :=
  KECCAK_RC.foldl (fun st rc => keccakRound rc st) s

/-- Lanes of the state as a list, in lane order. -/
def stateList (s : KState) : List Nat :=
  [s.a0, s.a1, s.a2, s.a3, s.a4, s.a5, s.a6, s.a7, s.a8, s.a9, s.a10,
   s.a11, s.a12, s.a13, s.a14, s.a15, s.a16, s.a17, s.a18, s.a19, s.a20,
   s.a21, s.a22, s.a23, s.a24]

/-- Build a state from a list of 25 lanes. -/
def stateOf (l : List Nat) : KState :=
  ⟨l.getD 0 0, l.getD 1 0, l.getD 2 0, l.getD 3 0, l.getD 4 0, l.getD 5 0,
   l.getD 6 0, l.getD 7 0, l.getD 8 0, l.getD 9 0, l.getD 10 0, l.getD 11 0,
   l.getD 12 0, l.getD 13 0, l.getD 14 0, l.getD 15 0, l.getD 16 0,
   l.getD 17 0, l.getD 18 0, l.getD 19 0, l.getD 20 0, l.getD 21 0,
   l.getD 22 0, l.getD 23 0, l.getD 24 0⟩

/-- Map a block of rate bytes to 64-bit lanes, little-endian within each lane. -/
def blockLanes (rate : Nat) (blk : List Nat) : List Nat :=
  (chunks 8 (blk.take rate)).map (fun lane =>
    (lane.enum.map (fun p => p.2 <<< (8 * p.1))).foldl (fun acc v => acc ||| v) 0)

/-- Xor one padded block into the sponge state and permute. -/
def absorbBlock (rate : Nat) (st : KState) (blk : List Nat) : KState :=
  let sl := stateList st
  let lanes := blockLanes rate blk
  keccakF (stateOf ((List.range 25).map (fun i =>
    if i < rate / 8 then sl.getD i 0 ^^^ lanes.getD i 0 else sl.getD i 0)))

/-- Pad a message per FIPS 202 with domain-separation byte ds, then absorb all blocks. -/
def spongeAbsorb (rate ds : Nat) (msg : List Nat) : KState :=
  let padLen := rate - msg.length % rate
  let padded :=
    if padLen = 1 then msg ++ [ds ||| 128]
    else msg ++ [ds] ++ List.replicate (padLen - 2) 0 ++ [128]
  (chunks rate padded).foldl (fun st blk => absorbBlock rate st blk)
    (stateOf (List.replicate 25 0))

/-- Read the first rate bytes of the sponge state. -/
def stateBytes (rate : Nat) (st : KState) : List Nat :=
  ((stateList st).take (rate / 8)).flatMap (fun lane =>
    (List.range 8).map (fun k => (lane >>> (8 * k)) % 256))

/-- Squeeze a given number of rate-sized blocks out of the sponge. -/
def squeezeBlocks (rate : Nat) : Nat → KState → List Nat
  | 0, _ => []
  | b + 1, st => stateBytes rate st ++ squeezeBlocks rate b (keccakF st)

/-- Generic sponge: absorb msg with domain byte ds at the given rate and squeeze n bytes. -/
def sponge (rate ds : Nat) (msg : List Nat) (n : Nat) : List Nat :=
  (squeezeBlocks rate ((n + rate - 1) / rate) (spongeAbsorb rate ds msg)).take n

/-- SHA3-256 of a byte list, 32 bytes of output. -/
def sha3_256 (msg : List Nat) : List Nat := sponge 136 6 msg 32

/-- SHA3-512 of a byte list, 64 bytes of output. -/
def sha3_512 (msg : List Nat) : List Nat := sponge 72 6 msg 64

/-- SHAKE128 extendable output of a byte list, n bytes of output. -/
def shake128Xof (msg : List Nat) (n : Nat) : List Nat := sponge 168 31 msg n

/-- SHAKE256 extendable output of a byte list, n bytes of output. -/
def shake256Xof (msg : List Nat) (n : Nat) : List Nat := sponge 136 31 msg n

/-!
Polynomial layer.  A polynomial is a list of 256 coefficients; the C
type poly_t stores them in uint16_t slots.  The in-place loops of the C
source become functional passes in the same order.
-/

/-- Component-wise sum modulo q, embedding poly_add from fips203.c. -/
def poly_add (a b : List Nat) : List Nat :=
  List.zipWith (fun x y => (x + y) % Q) a b

/-- Component-wise difference modulo q, embedding poly_sub from fips203.c:
the subtraction is performed as addition of Q minus the subtrahend. -/
def poly_sub (a b : List Nat) : List Nat :=
  List.zipWith (fun x y => (x + (Q - y)) % Q) a b

/-- NTT-domain base-case multiply, embedding poly_mul from fips203.c.
The C source accumulates a0*b0 + a1*b1*MUL_LUT[i] in uint32_t
arithmetic, so the sum is reduced modulo 2^32 before the reduction
modulo q. -/
def poly_mul (a b : List Nat) : List Nat :=
  (List.zipWith (fun (pr : List Nat × List Nat) lut =>
    let a0 := pr.1.getD 0 0
    let a1 := pr.1.getD 1 0
    let b0 := pr.2.getD 0 0
    let b1 := pr.2.getD 1 0
    [((a0 * b0 + a1 * b1 * lut) % U32) % Q,
     ((a0 * b1 + a1 * b0) % U32) % Q])
    ((chunks 2 a).zip (chunks 2 b)) MUL_LUT).flatten

/-- Forward butterfly of one block of poly_ntt: the block is the
concatenation of halves a and b of len coefficients each; position j
becomes (a_j + zeta b_j, a_j - zeta b_j) modulo q. -/
def nttBlock (zeta len : Nat) (blk : List Nat) : List Nat :=
  let a := blk.take len
  let b := blk.drop len
  let t := b.map (fun y => zeta * y % Q)
  List.zipWith (fun x u => (x + u) % Q) a t ++
    List.zipWith (fun x u => (x + (Q - u)) % Q) a t

/-- Inverse butterfly of one block of poly_inv_ntt: position j of halves
a and b becomes (a_j + b_j, zeta (b_j - a_j)) modulo q. -/
def invNttBlock (zeta len : Nat) (blk : List Nat) : List Nat :=
  let a := blk.take len
  let b := blk.drop len
  List.zipWith (fun x y => (x + y) % Q) a b ++
    List.zipWith (fun x y => zeta * (y + (Q - x)) % Q) a b

/-- Apply a block function to successive blocks, threading the twiddle
counter k through the function step (k+1 for the forward pass, k-1 for
the inverse pass), exactly as the C loops increment or decrement k once
per block. -/
def mapWithK (g : Nat → List Nat → List Nat) (step : Nat → Nat) :
    Nat → List (List Nat) → List (List Nat)
  | _, [] => []
  | k, blk :: rest => g k blk :: mapWithK g step (step k) rest

/-- One forward NTT pass over all blocks of size 2 len; the state pairs
the running twiddle counter with the coefficient list. -/
def nttStage (st : Nat × List Nat) (len : Nat) : Nat × List Nat :=
  let blocks := chunks (2 * len) st.2
  (st.1 + blocks.length,
   (mapWithK (fun k blk => nttBlock (NTT_LUT.getD k 0) len blk) (· + 1) st.1 blocks).flatten)

/-- One inverse NTT pass over all blocks of size 2 len, consuming the
twiddle table in reverse. -/
def invNttStage (st : Nat × List Nat) (len : Nat) : Nat × List Nat :=
  let blocks := chunks (2 * len) st.2
  (st.1 - blocks.length,
   (mapWithK (fun k blk => invNttBlock (NTT_LUT.getD k 0) len blk) (· - 1) st.1 blocks).flatten)

/-- Forward number-theoretic transform, embedding poly_ntt from
fips203.c: len runs over 128, 64, ..., 2 and the twiddle counter starts
at 1 and increments once per block. -/
def poly_ntt (p : List Nat) : List Nat :=
  ([128, 64, 32, 16, 8, 4, 2].foldl nttStage (1, p)).2

/-- Inverse number-theoretic transform, embedding poly_inv_ntt from
fips203.c: len runs over 2, 4, ..., 128, the twiddle counter starts at
127 and decrements once per block, and every coefficient is finally
scaled by 3303 modulo q. -/
def poly_inv_ntt (p : List Nat) : List Nat :=
  (([2, 4, 8, 16, 32, 64, 128].foldl invNttStage (127, p)).2).map (fun x => x * 3303 % Q)

/-!
Serialization and compression codecs.  Byte buffers are lists of Nat
with every stored value reduced to the uint8_t or uint16_t range the C
source stores it in.
-/

/-- Pack 256 coefficients into 384 bytes, embedding poly_encode from
fips203.c.  The middle byte of each 3-byte group is computed as
((a0 and 0xf00) >> 4) or ((a1 and 0x0f) << 4), as in the source. -/
def poly_encode (a : List Nat) : List Nat :=
  (chunks 2 a).flatMap (fun pr =>
    let a0 := pr.getD 0 0
    let a1 := pr.getD 1 0
    [a0 % 256,
     ((a0 &&& 3840) >>> 4) ||| ((a1 &&& 15) <<< 4),
     (a1 &&& 4080) >>> 4])

/-- Parse 384 bytes into 256 coefficients, embedding poly_decode from
fips203.c, including its reduction modulo q of each parsed value. -/
def poly_decode (b : List Nat) : List Nat :=
  (chunks 3 (b.take 384)).flatMap (fun tr =>
    let b0 := tr.getD 0 0
    let b1 := tr.getD 1 0
    let b2 := tr.getD 2 0
    [(b0 ||| ((b1 &&& 15) <<< 4)) % Q,
     (((b1 &&& 240) >>> 4) ||| (b2 <<< 4)) % Q])

/-- Shift-based 10-bit compression of one coefficient as used for
positions 1, 2 and 3 of each 4-coefficient group of poly_encode_10bit. -/
def comp10 (x : Nat) : Nat := (x >>> 2) + ((x >>> 1) &&& 1)

/-- Shift-based 10-bit compression of the first coefficient of each
4-coefficient group of poly_encode_10bit, whose rounding term reads
bit 2 instead of bit 1 in the source. -/
def comp10a (x : Nat) : Nat := (x >>> 2) + ((x >>> 2) &&& 1)

/-- Compress coefficients to 10 bits and pack them into 320 bytes,
embedding poly_encode_10bit from fips203.c. -/
def poly_encode_10bit (p : List Nat) : List Nat :=
  (chunks 4 p).flatMap (fun grp =>
    let p0 := comp10a (grp.getD 0 0)
    let p1 := comp10 (grp.getD 1 0)
    let p2 := comp10 (grp.getD 2 0)
    let p3 := comp10 (grp.getD 3 0)
    [p0 &&& 255,
     ((p0 >>> 8) &&& 3) ||| ((p1 &&& 63) <<< 2),
     ((p1 >>> 6) &&& 15) ||| ((p2 &&& 15) <<< 4),
     ((p2 >>> 4) &&& 63) ||| ((p3 &&& 3) <<< 6),
     (p3 >>> 2) &&& 255])

/-- Compress coefficients to 4 bits and pack them into 128 bytes,
embedding poly_encode_4bit from fips203.c; the byte store truncates to
uint8_t. -/
def poly_encode_4bit (p : List Nat) : List Nat :=
  (chunks 2 p).map (fun pr =>
    let p0 := ((pr.getD 0 0) >>> 8) + (((pr.getD 0 0) >>> 7) &&& 1)
    let p1 := ((pr.getD 1 0) >>> 8) + (((pr.getD 1 0) >>> 7) &&& 1)
    (p0 ||| (p1 <<< 4)) % 256)

/-- Compress coefficients to 1 bit (set when the coefficient exceeds
1664) and pack them into 32 bytes, embedding poly_encode_1bit. -/
def poly_encode_1bit (p : List Nat) : List Nat :=
  (chunks 8 p).map (fun grp =>
    (List.range 8).foldl (fun acc k =>
      acc ||| ((if 1664 < grp.getD k 0 then 1 else 0) <<< k)) 0)

/-- Decode 1-bit coefficients from 32 bytes and decompress by 1665,
embedding poly_decode_1bit. -/
def poly_decode_1bit (b : List Nat) : List Nat :=
  (b.take 32).flatMap (fun byte =>
    (List.range 8).map (fun k => 1665 * ((byte >>> k) &&& 1)))

/-- Decode 10-bit coefficients from 320 bytes and decompress by 3,
embedding poly_decode_10bit; each coefficient store truncates to
uint16_t. -/
def poly_decode_10bit (b : List Nat) : List Nat :=
  (chunks 5 (b.take 320)).flatMap (fun grp =>
    let b0 := grp.getD 0 0
    let b1 := grp.getD 1 0
    let b2 := grp.getD 2 0
    let b3 := grp.getD 3 0
    let b4 := grp.getD 4 0
    [(3 * (b0 ||| ((b1 &&& 3) <<< 8))) % 65536,
     (3 * ((b1 >>> 2) ||| ((b2 &&& 15) <<< 6))) % 65536,
     (3 * ((b2 >>> 4) ||| ((b3 &&& 63) <<< 4))) % 65536,
     (3 * ((b3 >>> 6) ||| (b4 <<< 2))) % 65536])

/-- Decode 4-bit coefficients from 128 bytes and decompress by 208,
embedding poly_decode_4bit; the source multiplies 208 by the nibble
shifted left by 8, and the coefficient store truncates to uint16_t. -/
def poly_decode_4bit (b : List Nat) : List Nat :=
  (b.take 128).flatMap (fun b0 =>
    [(208 * ((b0 &&& 15) <<< 8)) % 65536,
     (208 * ((b0 &&& 240) <<< 4)) % 65536])

/-!
Samplers.  The rejection sampler consumes the SHAKE128 output as a byte
stream; the loop of poly_sample_ntt is embedded with explicit fuel (one
unit per 3-byte squeeze) since its termination depends on the stream.
-/

/-- Loop of poly_sample_ntt from fips203.c over the XOF byte stream:
each iteration squeezes the next three bytes, splits them into
candidates d1 and d2, and appends a candidate strictly below q while
fewer than 256 coefficients have been accepted.  The result is none
when the provisioned stream is exhausted first. -/
def sampleNttLoop : List Nat → List Nat → Option (List Nat)
  | b0 :: b1 :: b2 :: rest, acc =>
    if 256 ≤ acc.length then some acc
    else
      let d1 := b0 ||| ((b1 &&& 15) <<< 8)
      let d2 := (b1 >>> 4) ||| (b2 <<< 4)
      let acc1 := if d1 < Q then acc ++ [d1] else acc
      let acc2 := if d2 < Q ∧ acc1.length < 256 then acc1 ++ [d2] else acc1
      sampleNttLoop rest acc2
  | _, acc => if 256 ≤ acc.length then some acc else none

/-- The 12-bit candidate stream that poly_sample_ntt parses from the
XOF bytes: every complete 3-byte group yields the candidate d1 followed
by the candidate d2. -/
def nttCands : List Nat → List Nat
  | b0 :: b1 :: b2 :: rest =>
    (b0 ||| ((b1 &&& 15) <<< 8)) :: (((b1 >>> 4) ||| (b2 <<< 4)) :: nttCands rest)
  | _ => []

/-- XOF byte budget provisioned for one rejection-sampling run. -/
def SAMPLE_BYTES : Nat := 672

/-- Sample a polynomial in the NTT domain, embedding poly_sample_ntt
from fips203.c: the SHAKE128 XOF absorbs rho, i and j and the loop
parses 12-bit candidates from its output. -/
def poly_sample_ntt (rho : List Nat) (i j : Nat) : Option (List Nat) :=
  sampleNttLoop (shake128Xof (rho.take 32 ++ [i, j]) SAMPLE_BYTES) []

/-- PRF of the CBD samplers, embedding prf from fips203.c: SHAKE256 of
the 32-byte seed followed by the byte b. -/
def prf (seed : List Nat) (b len : Nat) : List Nat :=
  shake256Xof (seed.take 32 ++ [b]) len

/-- Centered binomial sampler with parameter eta, embedding the
DEF_POLY_SAMPLE_CBD_ETA macro of fips203.c: coefficient i sums eta bits
starting at bit 2 i eta for x and the next eta bits for y and stores
(x - y) modulo q as x + (q - y). -/
def poly_sample_cbd (eta : Nat) (seed : List Nat) (b : Nat) : List Nat :=
  let buf := prf seed b (64 * eta)
  let bits := buf.flatMap (fun byte => (List.range 8).map (fun k => (byte >>> k) &&& 1))
  (chunks (2 * eta) bits).map (fun w =>
    let x := (w.take eta).sum
    let y := (w.drop eta).sum
    (x + (Q - y)) % Q)

/-- CBD sampler with eta 3, as instantiated in fips203.c. -/
def poly_sample_cbd_eta3 (seed : List Nat) (b : Nat) : List Nat :=
  poly_sample_cbd 3 seed b

/-- CBD sampler with eta 2, as instantiated in fips203.c. -/
def poly_sample_cbd_eta2 (seed : List Nat) (b : Nat) : List Nat :=
  poly_sample_cbd 2 seed b

/-!
Module layer for rank 2 (DEFINE_MAT_VEC_OPS(2) in fips203.c).  The
memset at the head of mat2_mul and vec2_mul passes
sizeof(N * sizeof(poly_t)) respectively sizeof(sizeof(poly_t)) as its
length, i.e. the size of a size_t expression: 8 bytes on the LP64
target, which is the first 4 uint16_t coefficients of the first output
polynomial only.
-/

/-- Clear the first 4 coefficients (8 bytes) of a polynomial, the
effect of the under-sized memset in mat2_mul and vec2_mul. -/
def memset8 (p : List Nat) : List Nat :=
  0 :: 0 :: 0 :: 0 :: p.drop 4

/-- Multiply a 2x2 matrix of NTT-domain polynomials by a 2-vector,
embedding mat2_mul from fips203.c; out carries the prior contents of
the caller's output buffer, of which only the first 8 bytes are
cleared before the products are accumulated. -/
def mat2_mul (out mat vec : List (List Nat)) : List (List Nat) :=
  let o0 := memset8 (out.getD 0 [])
  let o0 := poly_add o0 (poly_mul (mat.getD 0 []) (vec.getD 0 []))
  let o0 := poly_add o0 (poly_mul (mat.getD 1 []) (vec.getD 1 []))
  let o1 := out.getD 1 []
  let o1 := poly_add o1 (poly_mul (mat.getD 2 []) (vec.getD 0 []))
  let o1 := poly_add o1 (poly_mul (mat.getD 3 []) (vec.getD 1 []))
  [o0, o1]

/-- Component-wise vector sum, embedding vec2_add from fips203.c. -/
def vec2_add (a b : List (List Nat)) : List (List Nat) :=
  [poly_add (a.getD 0 []) (b.getD 0 []),
   poly_add (a.getD 1 []) (b.getD 1 [])]

/-- Inner product of two 2-vectors of NTT-domain polynomials, embedding
vec2_mul from fips203.c; c carries the prior contents of the output,
of which only the first 8 bytes are cleared. -/
def vec2_mul (c : List Nat) (a b : List (List Nat)) : List Nat :=
  let c0 := memset8 c
  let c0 := poly_add c0 (poly_mul (a.getD 0 []) (b.getD 0 []))
  poly_add c0 (poly_mul (a.getD 1 []) (b.getD 1 []))

/-!
PKE and KEM layers for the 512 parameter set (K = 2).  Caller-provided
output buffers are explicit arguments, since the C functions write into
them in place and, for the encoded keys, do not cover every byte.
-/

/-- Overwrite buf starting at offset ofs with the bytes of v, leaving
every other position unchanged; positions past the end of buf are
dropped, matching a write into a larger enclosing C buffer. -/
def writeBytes (buf : List Nat) (ofs : Nat) (v : List Nat) : List Nat :=
  buf.enum.map (fun p =>
    if ofs ≤ p.1 ∧ p.1 < ofs + v.length then v.getD (p.1 - ofs) 0 else p.2)

/-- All-zero polynomial, the poly_t value produced by a zero initializer. -/
def zeroPoly : List Nat := List.replicate 256 0

/-- Generate the PKE512 key pair from a 32-byte seed, embedding
pke512_keygen from fips203.c; ek and dk are the caller's output buffers
(800 and at least 768 bytes).  The t-hat and s-hat polynomials are
written at byte offset 386 times i, as in the source. -/
def pke512_keygen (ek dk seed : List Nat) : Option (List Nat × List Nat) := do
  let rs := sha3_512 (seed.take 32)
  let rho := rs.take 32
  let sigma := rs.drop 32
  let a00 ← poly_sample_ntt rho 0 0
  let a01 ← poly_sample_ntt rho 0 1
  let a10 ← poly_sample_ntt rho 1 0
  let a11 ← poly_sample_ntt rho 1 1
  let se := (List.range 4).map (fun i => poly_ntt (poly_sample_cbd_eta3 sigma i))
  let s := [se.getD 0 [], se.getD 1 []]
  let e := [se.getD 2 [], se.getD 3 []]
  let t := vec2_add (mat2_mul [zeroPoly, zeroPoly] [a00, a01, a10, a11] s) e
  let ek := (List.range 2).foldl
    (fun ek i => writeBytes ek (386 * i) (poly_encode (t.getD i []))) ek
  let ek := writeBytes ek (2 * 384) rho
  let dk := (List.range 2).foldl
    (fun dk i => writeBytes dk (386 * i) (poly_encode (se.getD i []))) dk
  pure (ek, dk)

/-- Encrypt a 32-byte message under a PKE512 encryption key with
32-byte randomness, embedding pke512_encrypt from fips203.c; ct is the
caller's 768-byte output buffer. -/
def pke512_encrypt (ct ek m encRand : List Nat) : Option (List Nat) := do
  let t := [poly_decode (ek.drop 0), poly_decode (ek.drop 384)]
  let rho := (ek.drop 768).take 32
  let a00 ← poly_sample_ntt rho 0 0
  let a01 ← poly_sample_ntt rho 1 0
  let a10 ← poly_sample_ntt rho 0 1
  let a11 ← poly_sample_ntt rho 1 1
  let r := [poly_ntt (poly_sample_cbd_eta3 encRand 0),
            poly_ntt (poly_sample_cbd_eta3 encRand 1)]
  let e1 := [poly_sample_cbd_eta2 encRand 2, poly_sample_cbd_eta2 encRand 3]
  let e2 := poly_sample_cbd_eta2 encRand 4
  let u := mat2_mul [zeroPoly, zeroPoly] [a00, a01, a10, a11] r
  let u := [poly_inv_ntt (u.getD 0 []), poly_inv_ntt (u.getD 1 [])]
  let u := vec2_add u e1
  let ct := (List.range 2).foldl
    (fun ct i => writeBytes ct (320 * i) (poly_encode_10bit (u.getD i []))) ct
  let mu := poly_decode_1bit (m.take 32)
  let v := vec2_mul zeroPoly t r
  let v := poly_inv_ntt v
  let v := poly_add v e2
  let v := poly_add v mu
  pure (writeBytes ct (320 * 2) (poly_encode_4bit v))

/-- Decrypt a PKE512 ciphertext, embedding pke512_decrypt from
fips203.c; returns the 32-byte message. -/
def pke512_decrypt (dk ct : List Nat) : List Nat :=
  let u := [poly_decode_10bit (ct.drop 0), poly_decode_10bit (ct.drop 320)]
  let v := poly_decode_4bit (ct.drop 640)
  let s := [poly_decode (dk.drop 0), poly_decode (dk.drop 384)]
  let su := poly_add (poly_add zeroPoly
    (poly_mul (s.getD 0 []) (poly_ntt (u.getD 0 []))))
    (poly_mul (s.getD 1 []) (poly_ntt (u.getD 1 [])))
  let su := poly_inv_ntt su
  let w := poly_sub v su
  poly_encode_1bit w

/-- Constant-time difference, embedding ct_diff from fips203.c: the
exclusive ors of corresponding bytes are ored together and the result
is compared with zero. -/
def ct_diff (a b : List Nat) : Bool :=
  ((List.zipWith (fun x y => x ^^^ y) a b).foldl (fun r x => r ||| x) 0) == 0

/-- Constant-time 32-byte copy, embedding ct_copy from fips203.c: a
byte mask derived from sel blends a and b. -/
def ct_copy (sel : Bool) (a b : List Nat) : List Nat :=
  let mask := if sel then 255 else 0
  (List.range 32).map (fun i =>
    ((a.getD i 0 &&& mask) ^^^ (b.getD i 0 &&& (255 ^^^ mask))) % 256)

/-- KEM512 key generation from a 64-byte seed, embedding
fips203_kem512_keygen from fips203.c; ekBuf and dkBuf are the caller's
800- and 1632-byte output buffers. -/
def fips203_kem512_keygen (ekBuf dkBuf seed : List Nat) :
    Option (List Nat × List Nat) := do
  let z := seed.take 32
  let d := seed.drop 32
  let (ek, dk) ← pke512_keygen ekBuf dkBuf d
  let dk := writeBytes dk 768 (ek.take 800)
  let dk := writeBytes dk (768 + 800) (sha3_256 (ek.take 800))
  let dk := writeBytes dk (768 + 800 + 32) z
  pure (ek, dk)

/-- KEM512 encapsulation, embedding fips203_kem512_encaps from
fips203.c; ctBuf is the caller's 768-byte ciphertext buffer.  Returns
the 32-byte shared key and the ciphertext. -/
def fips203_kem512_encaps (ctBuf ek seed : List Nat) :
    Option (List Nat × List Nat) := do
  let data := seed.take 32 ++ sha3_256 (ek.take 800)
  let kr := sha3_512 data
  let ct ← pke512_encrypt ctBuf ek (seed.take 32) (kr.drop 32)
  pure (kr.take 32, ct)

/-- Rounding to nearest with ties away from zero of the ratio num over
den, for nonnegative operands. -/
def roundAway (num den : Nat) : Nat := (2 * num + den) / (2 * den)

/-- Compression rule of the specification: x in [0, q) maps to
round(x 2^d / q) mod 2^d, rounding to nearest with ties away from zero. -/
def compressRule (d x : Nat) : Nat := roundAway (x * 2 ^ d) Q % 2 ^ d

/-- Decompression rule of the specification: y in [0, 2^d) maps to
round(y q / 2^d), rounding to nearest with ties away from zero. -/
def decompressRule (d y : Nat) : Nat := roundAway (y * Q) (2 ^ d)

/-- Monomial x^i as a 256-coefficient polynomial. -/
def monomial (i : Nat) : List Nat :=
  (List.range 256).map (fun j => if j = i then 1 else 0)

/-- KEM512 decapsulation with implicit rejection, embedding
fips203_kem512_decaps from fips203.c.  Returns the 32-byte shared key. -/
def fips203_kem512_decaps (ct dkKem : List Nat) : Option (List Nat) := do
  let dkPke := dkKem.take 768
  let ekPke := (dkKem.drop 768).take 800
  let h := (dkKem.drop (2 * 384 * 2 + 32)).take 32
  let z := (dkKem.drop (2 * 384 * 2 + 64)).take 32
  let m := pke512_decrypt dkPke ct
  let mh := m ++ h
  let kr := sha3_512 mh
  let zc := z ++ ct.take 768
  let kRej := shake256Xof zc 32
  let ct2 ← pke512_encrypt (List.replicate 768 0) ekPke (mh.take 32) (kr.drop 32)
  pure (ct_copy (ct_diff (ct.take 768) ct2) kr kRej)

/-!
Infrastructure lemmas about chunking, lengths and byte writes.
-/

theorem chunksGo_nil (n f : Nat) : chunksGo n f [] = [] := by
  cases f <;> rfl

theorem chunksGo_fuel (n : Nat) (hn : 1 ≤ n) :
    ∀ (f₁ : Nat) (f₂ : Nat) (l : List Nat), l.length ≤ f₁ → l.length ≤ f₂ →
      chunksGo n f₁ l = chunksGo n f₂ l := by
  intro f₁
  induction f₁ with
  | zero =>
    intro f₂ l h1 _
    have : l = [] := List.eq_nil_of_length_eq_zero (Nat.le_zero.mp h1)
    subst this
    simp [chunksGo_nil]
  | succ f ih =>
    intro f₂ l h1 h2
    cases l with
    | nil => simp [chunksGo_nil]
    | cons x xs =>
      cases f₂ with
      | zero => simp at h2
      | succ f₂ =>
        show (x :: xs).take n :: chunksGo n f ((x :: xs).drop n) =
          (x :: xs).take n :: chunksGo n f₂ ((x :: xs).drop n)
        have hd : ((x :: xs).drop n).length = (x :: xs).length - n := by
          simp [List.length_drop]
        have hlen : (x :: xs).length = xs.length + 1 := by simp
        refine congrArg _ (ih f₂ _ ?_ ?_) <;> (rw [hd, hlen]; omega)

theorem chunks_cons (n : Nat) (hn : 1 ≤ n) (x : Nat) (xs : List Nat) :
    chunks n (x :: xs) = (x :: xs).take n :: chunks n ((x :: xs).drop n) := by
  show chunksGo n (x :: xs).length (x :: xs) = _
  have : chunksGo n (x :: xs).length (x :: xs) =
      (x :: xs).take n :: chunksGo n xs.length ((x :: xs).drop n) := by
    simp [List.length_cons]
    rfl
  rw [this]
  refine congrArg _ (chunksGo_fuel n hn _ _ _ ?_ ?_)
  · simp [List.length_drop]; omega
  · simp [List.length_drop]

theorem chunks_append (n : Nat) (hn : 1 ≤ n) (b rest : List Nat)
    (hb : b.length = n) : chunks n (b ++ rest) = b :: chunks n rest := by
  cases b with
  | nil => simp at hb; omega
  | cons x xs =>
    rw [show (x :: xs) ++ rest = x :: (xs ++ rest) by rfl, chunks_cons n hn]
    have h1 : (x :: (xs ++ rest)).take n = x :: xs := by
      rw [show x :: (xs ++ rest) = (x :: xs) ++ rest by rfl,
        List.take_append_of_le_length (by omega), List.take_of_length_le (by omega)]
    have h2 : (x :: (xs ++ rest)).drop n = rest := by
      rw [show x :: (xs ++ rest) = (x :: xs) ++ rest by rfl]
      rw [show n = (x :: xs).length by omega, List.drop_left]
    rw [h1, h2]

theorem chunks_flatten (n : Nat) (hn : 1 ≤ n) :
    ∀ (B : List (List Nat)), (∀ b ∈ B, b.length = n) → chunks n B.flatten = B := by
  intro B
  induction B with
  | nil => intro _; rfl
  | cons b bs ih =>
    intro h
    rw [List.flatten_cons, chunks_append n hn b bs.flatten (h b (by simp))]
    rw [ih (fun x hx => h x (by simp [hx]))]

theorem chunks_length_dvd (n : Nat) (hn : 1 ≤ n) :
    ∀ (m : Nat) (l : List Nat), l.length = n * m → (chunks n l).length = m := by
  intro m
  induction m with
  | zero =>
    intro l hl
    have : l = [] := List.eq_nil_of_length_eq_zero (by omega)
    subst this; rfl
  | succ m ih =>
    intro l hl
    rw [Nat.mul_succ] at hl
    cases l with
    | nil => simp at hl; omega
    | cons x xs =>
      rw [chunks_cons n hn]
      have hd : ((x :: xs).drop n).length = n * m := by
        rw [List.length_drop, hl]; omega
      simp only [List.length_cons]
      rw [ih _ hd]

theorem mem_chunks_length (n : Nat) (hn : 1 ≤ n) :
    ∀ (m : Nat) (l : List Nat), l.length = n * m →
      ∀ b ∈ chunks n l, b.length = n := by
  intro m
  induction m with
  | zero =>
    intro l hl b hb
    have : l = [] := List.eq_nil_of_length_eq_zero (by omega)
    subst this
    simp [chunks, chunksGo_nil] at hb
  | succ m ih =>
    intro l hl b hb
    rw [Nat.mul_succ] at hl
    cases l with
    | nil => simp at hl; omega
    | cons x xs =>
      rw [chunks_cons n hn] at hb
      have hd : ((x :: xs).drop n).length = n * m := by
        rw [List.length_drop, hl]; omega
      rcases List.mem_cons.mp hb with h | h
      · subst h
        rw [List.length_take]
        have : n ≤ (x :: xs).length := by rw [hl]; omega
        omega
      · exact ih _ hd b h

theorem chunks_length_le (n : Nat) (hn : 1 ≤ n) :
    ∀ (m : Nat) (l : List Nat), l.length ≤ n * m → (chunks n l).length ≤ m := by
  intro m
  induction m with
  | zero =>
    intro l hl
    have : l = [] := List.eq_nil_of_length_eq_zero (by omega)
    subst this
    simp [chunks, chunksGo_nil]
  | succ m ih =>
    intro l hl
    rw [Nat.mul_succ] at hl
    cases l with
    | nil => simp [chunks, chunksGo_nil]
    | cons x xs =>
      rw [chunks_cons n hn]
      have hd : ((x :: xs).drop n).length ≤ n * m := by
        rw [List.length_drop]; omega
      simpa using ih _ hd

theorem length_flatMap_const (f : Nat → List Nat) (c : Nat)
    (hf : ∀ x, (f x).length = c) : ∀ l : List Nat, (l.flatMap f).length = c * l.length := by
  intro l
  induction l with
  | nil => simp
  | cons x xs ih => simp [List.flatMap_cons, ih, hf, Nat.mul_succ]; omega

theorem length_flatten_const (c : Nat) :
    ∀ B : List (List Nat), (∀ b ∈ B, b.length = c) → B.flatten.length = c * B.length := by
  intro B
  induction B with
  | nil => simp
  | cons b bs ih =>
    intro h
    simp only [List.flatten_cons, List.length_append, List.length_cons,
      ih (fun x hx => h x (by simp [hx])), h b (by simp), Nat.mul_succ]
    omega

theorem length_stateBytes (rate : Nat) (hr : rate / 8 ≤ 25) (st : KState) :
    (stateBytes rate st).length = 8 * (rate / 8) := by
  have h25 : (stateList st).length = 25 := by rfl
  rw [stateBytes, length_flatMap_const _ 8 (by intro x; simp), List.length_take, h25]
  omega

theorem length_squeezeBlocks (rate : Nat) (hr : rate / 8 ≤ 25) :
    ∀ (b : Nat) (st : KState), (squeezeBlocks rate b st).length = b * (8 * (rate / 8)) := by
  intro b
  induction b with
  | zero => intro st; simp [squeezeBlocks]
  | succ n ih =>
    intro st
    simp only [squeezeBlocks, List.length_append, length_stateBytes rate hr, ih]
    ring

theorem length_sponge (rate ds n : Nat) (msg : List Nat) (hr : rate / 8 ≤ 25)
    (h8 : 8 * (rate / 8) = rate) (h1 : 1 ≤ rate) :
    (sponge rate ds msg n).length = n := by
  rw [sponge, List.length_take, length_squeezeBlocks rate hr, h8]
  rcases Nat.eq_zero_or_pos n with h | h
  · simp [h]
  · have hq := Nat.div_add_mod (n + rate - 1) rate
    have hm := Nat.mod_lt (n + rate - 1) (show 0 < rate by omega)
    have hc : (n + rate - 1) / rate * rate = rate * ((n + rate - 1) / rate) :=
      Nat.mul_comm _ _
    omega

theorem length_sha3_256 (msg : List Nat) : (sha3_256 msg).length = 32 :=
  length_sponge 136 6 32 msg (by decide) (by decide) (by decide)

theorem length_sha3_512 (msg : List Nat) : (sha3_512 msg).length = 64 :=
  length_sponge 72 6 64 msg (by decide) (by decide) (by decide)

theorem length_shake128Xof (msg : List Nat) (n : Nat) : (shake128Xof msg n).length = n :=
  length_sponge 168 31 n msg (by decide) (by decide) (by decide)

theorem length_shake256Xof (msg : List Nat) (n : Nat) : (shake256Xof msg n).length = n :=
  length_sponge 136 31 n msg (by decide) (by decide) (by decide)

theorem length_prf (seed : List Nat) (b len : Nat) : (prf seed b len).length = len :=
  length_shake256Xof _ len

theorem length_poly_sample_cbd_eta3 (seed : List Nat) (b : Nat) :
    (poly_sample_cbd_eta3 seed b).length = 256 := by
  rw [poly_sample_cbd_eta3, poly_sample_cbd, List.length_map]
  have hbits : ((prf seed b (64 * 3)).flatMap
      (fun byte => (List.range 8).map (fun k => (byte >>> k) &&& 1))).length = 6 * 256 := by
    rw [length_flatMap_const _ 8 (by intro x; simp), length_prf]
  exact chunks_length_dvd 6 (by omega) 256 _ hbits

theorem length_poly_sample_cbd_eta2 (seed : List Nat) (b : Nat) :
    (poly_sample_cbd_eta2 seed b).length = 256 := by
  rw [poly_sample_cbd_eta2, poly_sample_cbd, List.length_map]
  have hbits : ((prf seed b (64 * 2)).flatMap
      (fun byte => (List.range 8).map (fun k => (byte >>> k) &&& 1))).length = 4 * 256 := by
    rw [length_flatMap_const _ 8 (by intro x; simp), length_prf]
  exact chunks_length_dvd 4 (by omega) 256 _ hbits

theorem length_mapWithK (g : Nat → List Nat → List Nat) (step : Nat → Nat) :
    ∀ (B : List (List Nat)) (k : Nat), (mapWithK g step k B).length = B.length := by
  intro B
  induction B with
  | nil => intro k; rfl
  | cons b bs ih => intro k; simp [mapWithK, ih]

theorem mapWithK_forall (g : Nat → List Nat → List Nat) (step : Nat → Nat)
    (P : List Nat → Prop) :
    ∀ (B : List (List Nat)) (k : Nat), (∀ k' b, b ∈ B → P (g k' b)) →
      ∀ b' ∈ mapWithK g step k B, P b' := by
  intro B
  induction B with
  | nil => intro k _ b' hb'; simp [mapWithK] at hb'
  | cons b bs ih =>
    intro k h b' hb'
    rcases List.mem_cons.mp hb' with h1 | h1
    · subst h1; exact h k b (by simp)
    · exact ih (step k) (fun k' x hx => h k' x (by simp [hx])) b' h1

theorem mem_zipWith_mod_lt (f : Nat → Nat → Nat) :
    ∀ (a b : List Nat), ∀ x ∈ List.zipWith (fun u v => f u v % Q) a b, x < Q := by
  intro a
  induction a with
  | nil => intro b x hx; simp at hx
  | cons u us ih =>
    intro b x hx
    cases b with
    | nil => simp at hx
    | cons v vs =>
      rcases List.mem_cons.mp hx with h | h
      · subst h; exact Nat.mod_lt _ (by decide)
      · exact ih vs x h

theorem nttBlock_length (z len : Nat) (blk : List Nat) (h : blk.length = 2 * len) :
    (nttBlock z len blk).length = 2 * len := by
  simp only [nttBlock, List.length_append, List.length_zipWith, List.length_map,
    List.length_take, List.length_drop, h]
  omega

theorem nttBlock_lt (z len : Nat) (blk : List Nat) :
    ∀ x ∈ nttBlock z len blk, x < Q := by
  intro x hx
  rcases List.mem_append.mp hx with h | h
  · exact mem_zipWith_mod_lt (fun u v => u + v) _ _ x h
  · exact mem_zipWith_mod_lt (fun u v => u + (Q - v)) _ _ x h

theorem invNttBlock_length (z len : Nat) (blk : List Nat) (h : blk.length = 2 * len) :
    (invNttBlock z len blk).length = 2 * len := by
  simp only [invNttBlock, List.length_append, List.length_zipWith,
    List.length_take, List.length_drop, h]
  omega

theorem invNttBlock_lt (z len : Nat) (blk : List Nat) :
    ∀ x ∈ invNttBlock z len blk, x < Q := by
  intro x hx
  rcases List.mem_append.mp hx with h | h
  · exact mem_zipWith_mod_lt (fun u v => u + v) _ _ x h
  · exact mem_zipWith_mod_lt (fun u v => z * (v + (Q - u))) _ _ x h

theorem nttStage_spec (st : Nat × List Nat) (len m : Nat) (hl : 1 ≤ len)
    (hm : st.2.length = 2 * len * m) :
    (nttStage st len).1 = st.1 + m ∧ (nttStage st len).2.length = 2 * len * m ∧
      ∀ x ∈ (nttStage st len).2, x < Q := by
  have h2 : (1 : Nat) ≤ 2 * len := by omega
  have hblocks : ∀ b ∈ chunks (2 * len) st.2, b.length = 2 * len :=
    mem_chunks_length (2 * len) h2 m st.2 hm
  have hcount : (chunks (2 * len) st.2).length = m :=
    chunks_length_dvd (2 * len) h2 m st.2 hm
  have houtlen : ∀ b' ∈ mapWithK
      (fun k blk => nttBlock (NTT_LUT.getD k 0) len blk) (· + 1) st.1
      (chunks (2 * len) st.2), b'.length = 2 * len := by
    refine mapWithK_forall _ _ _ _ _ ?_
    intro k' b hb
    exact nttBlock_length _ len b (hblocks b hb)
  refine ⟨by simp [nttStage, hcount], ?_, ?_⟩
  · show (mapWithK _ _ _ _).flatten.length = 2 * len * m
    rw [length_flatten_const (2 * len) _ houtlen, length_mapWithK, hcount]
  · intro x hx
    rw [nttStage] at hx
    obtain ⟨b, hb, hxb⟩ := List.mem_flatten.mp hx
    have := mapWithK_forall _ (· + 1) (fun b' => ∀ y ∈ b', y < Q)
      (chunks (2 * len) st.2) st.1 ?_ b hb
    · exact this x hxb
    · intro k' blk _
      exact nttBlock_lt _ len blk

theorem invNttStage_spec (st : Nat × List Nat) (len m : Nat) (hl : 1 ≤ len)
    (hm : st.2.length = 2 * len * m) :
    (invNttStage st len).1 = st.1 - m ∧ (invNttStage st len).2.length = 2 * len * m ∧
      ∀ x ∈ (invNttStage st len).2, x < Q := by
  have h2 : (1 : Nat) ≤ 2 * len := by omega
  have hblocks : ∀ b ∈ chunks (2 * len) st.2, b.length = 2 * len :=
    mem_chunks_length (2 * len) h2 m st.2 hm
  have hcount : (chunks (2 * len) st.2).length = m :=
    chunks_length_dvd (2 * len) h2 m st.2 hm
  have houtlen : ∀ b' ∈ mapWithK
      (fun k blk => invNttBlock (NTT_LUT.getD k 0) len blk) (· - 1) st.1
      (chunks (2 * len) st.2), b'.length = 2 * len := by
    refine mapWithK_forall _ _ _ _ _ ?_
    intro k' b hb
    exact invNttBlock_length _ len b (hblocks b hb)
  refine ⟨by simp [invNttStage, hcount], ?_, ?_⟩
  · show (mapWithK _ _ _ _).flatten.length = 2 * len * m
    rw [length_flatten_const (2 * len) _ houtlen, length_mapWithK, hcount]
  · intro x hx
    rw [invNttStage] at hx
    obtain ⟨b, hb, hxb⟩ := List.mem_flatten.mp hx
    have := mapWithK_forall _ (· - 1) (fun b' => ∀ y ∈ b', y < Q)
      (chunks (2 * len) st.2) st.1 ?_ b hb
    · exact this x hxb
    · intro k' blk _
      exact invNttBlock_lt _ len blk

theorem poly_ntt_spec (p : List Nat) (h : p.length = 256) :
    (poly_ntt p).length = 256 ∧ ∀ x ∈ poly_ntt p, x < Q := by
  have e : poly_ntt p =
      (nttStage (nttStage (nttStage (nttStage (nttStage (nttStage (nttStage
        (1, p) 128) 64) 32) 16) 8) 4) 2).2 := by
    rfl
  have s1 := nttStage_spec (1, p) 128 1 (by omega) (by simpa using h)
  have s2 := nttStage_spec _ 64 2 (by omega) (by simpa using s1.2.1)
  have s3 := nttStage_spec _ 32 4 (by omega) (by simpa using s2.2.1)
  have s4 := nttStage_spec _ 16 8 (by omega) (by simpa using s3.2.1)
  have s5 := nttStage_spec _ 8 16 (by omega) (by simpa using s4.2.1)
  have s6 := nttStage_spec _ 4 32 (by omega) (by simpa using s5.2.1)
  have s7 := nttStage_spec _ 2 64 (by omega) (by simpa using s6.2.1)
  rw [e]
  exact ⟨by simpa using s7.2.1, s7.2.2⟩

theorem poly_inv_ntt_spec (p : List Nat) (h : p.length = 256) :
    (poly_inv_ntt p).length = 256 ∧ ∀ x ∈ poly_inv_ntt p, x < Q := by
  have e : poly_inv_ntt p =
      ((invNttStage (invNttStage (invNttStage (invNttStage (invNttStage
        (invNttStage (invNttStage (127, p) 2) 4) 8) 16) 32) 64) 128).2).map
        (fun x => x * 3303 % Q) := by
    rfl
  have s1 := invNttStage_spec (127, p) 2 64 (by omega) (by simpa using h)
  have s2 := invNttStage_spec _ 4 32 (by omega) (by simpa using s1.2.1)
  have s3 := invNttStage_spec _ 8 16 (by omega) (by simpa using s2.2.1)
  have s4 := invNttStage_spec _ 16 8 (by omega) (by simpa using s3.2.1)
  have s5 := invNttStage_spec _ 32 4 (by omega) (by simpa using s4.2.1)
  have s6 := invNttStage_spec _ 64 2 (by omega) (by simpa using s5.2.1)
  have s7 := invNttStage_spec _ 128 1 (by omega) (by simpa using s6.2.1)
  rw [e]
  constructor
  · rw [List.length_map]; simpa using s7.2.1
  · intro x hx
    obtain ⟨y, _, rfl⟩ := List.mem_map.mp hx
    exact Nat.mod_lt _ (by decide)

theorem writeBytes_getD_away (buf v : List Nat) (ofs i d : Nat)
    (h : i < ofs ∨ ofs + v.length ≤ i) :
    (writeBytes buf ofs v).getD i d = buf.getD i d := by
  simp only [writeBytes, List.getD_eq_getElem?_getD, List.getElem?_map,
    List.getElem?_enum]
  cases hx : buf[i]? with
  | none => rfl
  | some a =>
    have hcond : ¬(ofs ≤ i ∧ i < ofs + v.length) := by omega
    simp [hcond]

theorem length_flatMap_const2 (f : List Nat → List Nat) (c : Nat)
    (hf : ∀ x, (f x).length = c) : ∀ l : List (List Nat), (l.flatMap f).length = c * l.length := by
  intro l
  induction l with
  | nil => simp
  | cons x xs ih => simp [List.flatMap_cons, ih, hf, Nat.mul_succ]; omega

theorem length_poly_add_le_left (a b : List Nat) : (poly_add a b).length ≤ a.length := by
  simp only [poly_add, List.length_zipWith]
  omega

theorem length_poly_encode_le (l : List Nat) (h : l.length ≤ 256) :
    (poly_encode l).length ≤ 384 := by
  have he : (poly_encode l).length = 3 * (chunks 2 l).length := by
    rw [poly_encode]
    exact length_flatMap_const2 _ 3 (by intro x; rfl) _
  have hc := chunks_length_le 2 (by omega) 128 l (by omega)
  omega


theorem length_memset8_le (p : List Nat) (h : p.length ≤ 256) :
    (memset8 p).length ≤ 256 := by
  simp only [memset8, List.length_cons, List.length_drop]
  omega

theorem length_mat2_mul_zero_getD_le (mat vec : List (List Nat)) (i : Nat) :
    ((mat2_mul [zeroPoly, zeroPoly] mat vec).getD i []).length ≤ 256 := by
  match i with
  | 0 =>
    refine le_trans (length_poly_add_le_left _ _) ?_
    refine le_trans (length_poly_add_le_left _ _) ?_
    exact length_memset8_le _ (by rfl)
  | 1 =>
    refine le_trans (length_poly_add_le_left _ _) ?_
    refine le_trans (length_poly_add_le_left _ _) ?_
    rfl
  | (n + 2) => simp [mat2_mul]

theorem length_vec2_add_getD_le (a b : List (List Nat)) (i : Nat)
    (h : (a.getD i []).length ≤ 256) : ((vec2_add a b).getD i []).length ≤ 256 := by
  match i with
  | 0 => exact le_trans (length_poly_add_le_left _ _) h
  | 1 => exact le_trans (length_poly_add_le_left _ _) h
  | (n + 2) => simp [vec2_add]

/-- C2: pke512_keygen leaves bytes 384 and 385 of both output buffers
untouched for every seed and every initial buffer contents, because the
second polynomial is encoded at byte offset 386 (the source writes at
386 i, not 384 i), refuting the claim that the i-th polynomial starts
at offset 384 i and that no byte is left unwritten. -/
theorem c2_keygen_skips_bytes_384_385 (seed ekInit dkInit : List Nat) :
    (pke512_keygen ekInit dkInit seed).elim True (fun p =>
      p.1.getD 384 0 = ekInit.getD 384 0 ∧ p.1.getD 385 0 = ekInit.getD 385 0 ∧
      p.2.getD 384 0 = dkInit.getD 384 0 ∧ p.2.getD 385 0 = dkInit.getD 385 0) := by
  cases hkg : pke512_keygen ekInit dkInit seed with
  | none => exact trivial
  | some p =>
    rw [pke512_keygen] at hkg
    cases h00 : poly_sample_ntt ((sha3_512 (seed.take 32)).take 32) 0 0 with
    | none => rw [h00] at hkg; simp at hkg
    | some a00 =>
    rw [h00] at hkg
    cases h01 : poly_sample_ntt ((sha3_512 (seed.take 32)).take 32) 0 1 with
    | none => rw [h01] at hkg; simp at hkg
    | some a01 =>
    rw [h01] at hkg
    cases h10 : poly_sample_ntt ((sha3_512 (seed.take 32)).take 32) 1 0 with
    | none => rw [h10] at hkg; simp at hkg
    | some a10 =>
    rw [h10] at hkg
    cases h11 : poly_sample_ntt ((sha3_512 (seed.take 32)).take 32) 1 1 with
    | none => rw [h11] at hkg; simp at hkg
    | some a11 =>
    rw [h11] at hkg
    simp only [Option.pure_def, Option.bind_eq_bind, Option.some_bind, Option.some_inj] at hkg
    subst hkg
    have hr2 : List.range 2 = [0, 1] := rfl
    have hse : ∀ j : Nat, ((List.map (fun i => poly_ntt
        (poly_sample_cbd_eta3 (List.drop 32 (sha3_512 (List.take 32 seed))) i))
        (List.range 4)).getD j []).length ≤ 256 := by
      intro j
      match j with
      | 0 => exact le_of_eq (poly_ntt_spec _ (length_poly_sample_cbd_eta3 _ _)).1
      | 1 => exact le_of_eq (poly_ntt_spec _ (length_poly_sample_cbd_eta3 _ _)).1
      | 2 => exact le_of_eq (poly_ntt_spec _ (length_poly_sample_cbd_eta3 _ _)).1
      | 3 => exact le_of_eq (poly_ntt_spec _ (length_poly_sample_cbd_eta3 _ _)).1
      | (n + 4) =>
        rw [List.getD_eq_getElem?_getD, List.getElem?_map,
          List.getElem?_eq_none (by simp)]
        simp
    refine ⟨?_, ?_, ?_, ?_⟩
    · rw [hr2]
      simp only [List.foldl_cons, List.foldl_nil, Nat.mul_zero, Nat.mul_one]
      rw [writeBytes_getD_away _ _ (2 * 384) 384 0 (Or.inl (by omega)),
        writeBytes_getD_away _ _ 386 384 0 (Or.inl (by omega)),
        writeBytes_getD_away _ _ 0 384 0 (Or.inr ?_)]
      simpa using length_poly_encode_le _ (length_vec2_add_getD_le _ _ 0
        (length_mat2_mul_zero_getD_le _ _ 0))
    · rw [hr2]
      simp only [List.foldl_cons, List.foldl_nil, Nat.mul_zero, Nat.mul_one]
      rw [writeBytes_getD_away _ _ (2 * 384) 385 0 (Or.inl (by omega)),
        writeBytes_getD_away _ _ 386 385 0 (Or.inl (by omega)),
        writeBytes_getD_away _ _ 0 385 0 (Or.inr ?_)]
      refine le_trans (by simpa using length_poly_encode_le _ (length_vec2_add_getD_le _ _ 0
        (length_mat2_mul_zero_getD_le _ _ 0))) (by omega)
    · rw [hr2]
      simp only [List.foldl_cons, List.foldl_nil, Nat.mul_zero, Nat.mul_one]
      rw [writeBytes_getD_away _ _ 386 384 0 (Or.inl (by omega)),
        writeBytes_getD_away _ _ 0 384 0 (Or.inr ?_)]
      simpa using length_poly_encode_le _ (hse 0)
    · rw [hr2]
      simp only [List.foldl_cons, List.foldl_nil, Nat.mul_zero, Nat.mul_one]
      rw [writeBytes_getD_away _ _ 386 385 0 (Or.inl (by omega)),
        writeBytes_getD_away _ _ 0 385 0 (Or.inr ?_)]
      refine le_trans (by simpa using length_poly_encode_le _ (hse 0)) (by omega)

theorem zipWith_forall {a b c : Type} (f : a → b → c) (P : c → Prop)
    (h : ∀ x y, P (f x y)) :
    ∀ (l1 : List a) (l2 : List b), ∀ z ∈ List.zipWith f l1 l2, P z := by
  intro l1
  induction l1 with
  | nil => intro l2 z hz; simp at hz
  | cons x xs ih =>
    intro l2 z hz
    cases l2 with
    | nil => simp at hz
    | cons y ys =>
      rcases List.mem_cons.mp hz with h1 | h1
      · subst h1; exact h x y
      · exact ih ys z h1

theorem length_poly_mul (a b : List Nat) (ha : a.length = 256) (hb : b.length = 256) :
    (poly_mul a b).length = 256 := by
  have hca : (chunks 2 a).length = 128 := chunks_length_dvd 2 (by omega) 128 a (by omega)
  have hcb : (chunks 2 b).length = 128 := chunks_length_dvd 2 (by omega) 128 b (by omega)
  have hlut : MUL_LUT.length = 128 := by rfl
  rw [poly_mul]
  rw [length_flatten_const 2 _ ?_]
  · rw [List.length_zipWith, List.length_zip, hca, hcb, hlut]
    omega
  · intro blk hblk
    exact zipWith_forall _ (fun z => z.length = 2) (fun x y => rfl) _ _ blk hblk

theorem getD_poly_add (a b : List Nat) (i : Nat) (hia : i < a.length)
    (hib : i < b.length) :
    (poly_add a b).getD i 0 = (a.getD i 0 + b.getD i 0) % Q := by
  have hl : i < (poly_add a b).length := by
    simp only [poly_add, List.length_zipWith]; omega
  rw [List.getD_eq_getElem _ _ hl, List.getD_eq_getElem _ _ hia,
    List.getD_eq_getElem _ _ hib]
  exact List.getElem_zipWith

theorem length_poly_add (u v : List Nat) (hu : u.length = 256) (hv : v.length = 256) :
    (poly_add u v).length = 256 := by
  simp only [poly_add, List.length_zipWith, hu, hv]
  rfl

theorem memset8_length (p : List Nat) (h : p.length = 256) : (memset8 p).length = 256 := by
  simp only [memset8, List.length_cons, List.length_drop, h]

theorem memset8_zeroPoly : memset8 zeroPoly = zeroPoly := by rfl

theorem getD_zeroPoly (i : Nat) : zeroPoly.getD i 0 = 0 := by
  rw [zeroPoly, List.getD_eq_getElem?_getD, List.getElem?_replicate]
  split <;> rfl

/-- C9 amended: mat2_mul and vec2_mul add the matrix-vector product to
the prior contents of the output buffer, of which only the first four
coefficients (8 bytes, one size_t) of the first output polynomial are
cleared by the under-sized memset; with an all-zero prior the result is
therefore the exact product, though an all-zero prior is not necessary
for exactness. -/
theorem c9_module_ops_accumulate_prior (p0 p1 c : List Nat) (mat vec : List (List Nat))
    (hp0 : p0.length = 256) (hp1 : p1.length = 256) (hc : c.length = 256)
    (hmat : ∀ j, j < 4 → (mat.getD j []).length = 256)
    (hvec : ∀ j, j < 2 → (vec.getD j []).length = 256) :
    (∀ i, i < 256 →
      ((mat2_mul [p0, p1] mat vec).getD 0 []).getD i 0 =
        (((mat2_mul [zeroPoly, zeroPoly] mat vec).getD 0 []).getD i 0 +
          (memset8 p0).getD i 0) % Q ∧
      ((mat2_mul [p0, p1] mat vec).getD 1 []).getD i 0 =
        (((mat2_mul [zeroPoly, zeroPoly] mat vec).getD 1 []).getD i 0 +
          p1.getD i 0) % Q ∧
      (vec2_mul c mat vec).getD i 0 =
        ((vec2_mul zeroPoly mat vec).getD i 0 + (memset8 c).getD i 0) % Q) ∧
    (mat2_mul [zeroPoly, zeroPoly] mat vec =
      [poly_add (poly_add (memset8 zeroPoly) (poly_mul (mat.getD 0 []) (vec.getD 0 [])))
        (poly_mul (mat.getD 1 []) (vec.getD 1 [])),
       poly_add (poly_add zeroPoly (poly_mul (mat.getD 2 []) (vec.getD 0 [])))
        (poly_mul (mat.getD 3 []) (vec.getD 1 []))]) := by
  have hzl : zeroPoly.length = 256 := rfl
  have hm8p0 : (memset8 p0).length = 256 := memset8_length p0 hp0
  have hm8z : (memset8 zeroPoly).length = 256 := memset8_length _ (by rfl)
  have hm8c : (memset8 c).length = 256 := memset8_length c hc
  have hx : (poly_mul (mat.getD 0 []) (vec.getD 0 [])).length = 256 :=
    length_poly_mul _ _ (hmat 0 (by omega)) (hvec 0 (by omega))
  have hy : (poly_mul (mat.getD 1 []) (vec.getD 1 [])).length = 256 :=
    length_poly_mul _ _ (hmat 1 (by omega)) (hvec 1 (by omega))
  have hx2 : (poly_mul (mat.getD 2 []) (vec.getD 0 [])).length = 256 :=
    length_poly_mul _ _ (hmat 2 (by omega)) (hvec 0 (by omega))
  have hy2 : (poly_mul (mat.getD 3 []) (vec.getD 1 [])).length = 256 :=
    length_poly_mul _ _ (hmat 3 (by omega)) (hvec 1 (by omega))
  refine ⟨?_, by rfl⟩
  intro i hi
  refine ⟨?_, ?_, ?_⟩
  · show (poly_add (poly_add (memset8 p0)
      (poly_mul (mat.getD 0 []) (vec.getD 0 [])))
      (poly_mul (mat.getD 1 []) (vec.getD 1 []))).getD i 0 =
      ((poly_add (poly_add (memset8 zeroPoly)
        (poly_mul (mat.getD 0 []) (vec.getD 0 [])))
        (poly_mul (mat.getD 1 []) (vec.getD 1 []))).getD i 0 +
        (memset8 p0).getD i 0) % Q
    rw [getD_poly_add _ _ i (by rw [length_poly_add _ _ hm8p0 hx]; omega) (by omega),
      getD_poly_add _ _ i (by omega) (by omega),
      getD_poly_add _ _ i (by rw [length_poly_add _ _ hm8z hx]; omega) (by omega),
      getD_poly_add _ _ i (by omega) (by omega),
      memset8_zeroPoly, getD_zeroPoly]
    simp only [Q]
    omega
  · show (poly_add (poly_add p1
      (poly_mul (mat.getD 2 []) (vec.getD 0 [])))
      (poly_mul (mat.getD 3 []) (vec.getD 1 []))).getD i 0 =
      ((poly_add (poly_add zeroPoly
        (poly_mul (mat.getD 2 []) (vec.getD 0 [])))
        (poly_mul (mat.getD 3 []) (vec.getD 1 []))).getD i 0 + p1.getD i 0) % Q
    rw [getD_poly_add _ _ i (by rw [length_poly_add _ _ hp1 hx2]; omega) (by omega),
      getD_poly_add _ _ i (by omega) (by omega),
      getD_poly_add _ _ i (by rw [length_poly_add _ _ (by rfl) hx2]; omega) (by omega),
      getD_poly_add _ _ i (by omega) (by omega),
      getD_zeroPoly]
    simp only [Q]
    omega
  · show (poly_add (poly_add (memset8 c)
      (poly_mul (mat.getD 0 []) (vec.getD 0 [])))
      (poly_mul (mat.getD 1 []) (vec.getD 1 []))).getD i 0 =
      ((poly_add (poly_add (memset8 zeroPoly)
        (poly_mul (mat.getD 0 []) (vec.getD 0 [])))
        (poly_mul (mat.getD 1 []) (vec.getD 1 []))).getD i 0 +
        (memset8 c).getD i 0) % Q
    rw [getD_poly_add _ _ i (by rw [length_poly_add _ _ hm8c hx]; omega) (by omega),
      getD_poly_add _ _ i (by omega) (by omega),
      getD_poly_add _ _ i (by rw [length_poly_add _ _ hm8z hx]; omega) (by omega),
      getD_poly_add _ _ i (by omega) (by omega),
      memset8_zeroPoly, getD_zeroPoly]
    simp only [Q]
    omega

/-!
Theorems settling the claims.
-/

/-- C3: the claim that poly_decode inverts poly_encode on every
polynomial with coefficients in [0, q) fails: on the polynomial whose
first coefficient is 256 (all others zero), the round trip returns the
zero polynomial, because poly_encode stores only the low 8 bits of each
even-indexed coefficient in a place poly_decode reads back. -/
theorem c3_encode_decode_no_roundtrip :
    poly_decode (poly_encode (256 :: List.replicate 255 0)) =
      0 :: 1 :: List.replicate 254 0 ∧
    (256 : Nat) :: List.replicate 255 0 ≠ 0 :: 1 :: List.replicate 254 0 := by
  exact ⟨by decide, by decide⟩

/-- C4: the shift-based codecs do not implement the exact rounding rule
round(x 2^d / q) and round(y q / 2^d) with ties away from zero.  At
coefficient value 100 the 10-bit encoder emits 26 at group position 0
and 25 at the other positions where the rule gives 31; at nibble 1 the
4-bit decoder yields 53248 where the rule gives 208; at coefficient
value 833 the 1-bit encoder emits bit 0 where the rule gives 1. -/
theorem c4_codecs_diverge_from_rounding_rule :
    (let out := poly_encode_10bit (List.replicate 256 100)
     out.getD 0 0 ||| ((out.getD 1 0 &&& 3) <<< 8)) = 26 ∧
    (let out := poly_encode_10bit (List.replicate 256 100)
     (out.getD 1 0 >>> 2) ||| ((out.getD 2 0 &&& 15) <<< 6)) = 25 ∧
    compressRule 10 100 = 31 ∧
    poly_decode_4bit (1 :: List.replicate 127 0) =
      53248 :: List.replicate 255 0 ∧
    decompressRule 4 1 = 208 ∧
    poly_encode_1bit (List.replicate 256 833) = List.replicate 32 0 ∧
    compressRule 1 833 = 1 := by
  refine ⟨by decide, by decide, by decide, by decide, by decide, by decide, by decide⟩

/-- C6: the ring-multiplication identities of the NTT-domain base-case
multiply with the MUL_LUT table: x times x is x squared, x^2 times x^3
is x^5, and x^255 times x is the constant polynomial q - 1 = 3328. -/
theorem c6_ring_multiplication_identities :
    poly_inv_ntt (poly_mul (poly_ntt (monomial 1)) (poly_ntt (monomial 1))) =
      monomial 2 ∧
    poly_inv_ntt (poly_mul (poly_ntt (monomial 2)) (poly_ntt (monomial 3))) =
      monomial 5 ∧
    poly_inv_ntt (poly_mul (poly_ntt (monomial 255)) (poly_ntt (monomial 1))) =
      3328 :: List.replicate 255 0 := by
  refine ⟨by decide, by decide, by decide⟩

/-- C9 counterexample: the product is obtained exactly for a prior
output whose only nonzero coefficient lies in the 8 memset-cleared
bytes, so exactness does not require an all-zero output on entry and
the biconditional of the claim fails. -/
theorem c9_exact_product_without_zero_prior :
    mat2_mul [0 :: 0 :: 5 :: List.replicate 253 0, zeroPoly]
      [zeroPoly, zeroPoly, zeroPoly, zeroPoly] [zeroPoly, zeroPoly] =
      [zeroPoly, zeroPoly] ∧
    (0 : Nat) :: 0 :: 5 :: List.replicate 253 0 ≠ zeroPoly := by
  exact ⟨by decide, by decide⟩


/-- Witness for the C9 theorem at concrete zero inputs. -/
theorem c9_module_ops_accumulate_prior_witness :
    ((mat2_mul [zeroPoly, zeroPoly] (List.replicate 4 zeroPoly)
        (List.replicate 2 zeroPoly)).getD 0 []).getD 0 0 =
      (((mat2_mul [zeroPoly, zeroPoly] (List.replicate 4 zeroPoly)
        (List.replicate 2 zeroPoly)).getD 0 []).getD 0 0 +
        (memset8 zeroPoly).getD 0 0) % Q ∧
    ((mat2_mul [zeroPoly, zeroPoly] (List.replicate 4 zeroPoly)
        (List.replicate 2 zeroPoly)).getD 1 []).getD 0 0 =
      (((mat2_mul [zeroPoly, zeroPoly] (List.replicate 4 zeroPoly)
        (List.replicate 2 zeroPoly)).getD 1 []).getD 0 0 +
        zeroPoly.getD 0 0) % Q ∧
    (vec2_mul zeroPoly (List.replicate 4 zeroPoly)
        (List.replicate 2 zeroPoly)).getD 0 0 =
      ((vec2_mul zeroPoly (List.replicate 4 zeroPoly)
        (List.replicate 2 zeroPoly)).getD 0 0 + (memset8 zeroPoly).getD 0 0) % Q := by
  exact (c9_module_ops_accumulate_prior zeroPoly zeroPoly zeroPoly
    (List.replicate 4 zeroPoly) (List.replicate 2 zeroPoly)
    (by rfl) (by rfl) (by rfl) (by decide) (by decide)).1 0 (by decide)

end Fips203
